import Mathlib

/-!
Verification of the ICS-27 interchaintest repository
(`LumeraProtocol/interchaintest-ics27`).

The development shallowly embeds the two components the specification
documents — the Packet Builder (`tools/buildpacket/main.go`) and the
Submission Driver (`ica_test.go`) — together with the genesis patching
helper (`chain_config.go`), and proves the specified properties about
those embeddings.

Conventions:
* Go byte strings are modelled as `List Nat` with every element `< 256`;
  a Go `string` that is known to be ASCII is injected with `strBytes`.
* Fallible Go calls are modelled with `Except`/`Option`; results of
  external collaborators (keyring, gRPC, SDK) are supplied through an
  environment record, and the straight-line Go control flow is replayed
  over it.
* Protobuf and base64 serialisation (`gogoproto.Marshal`,
  `base64.StdEncoding`) are embedded as executable functions together
  with decode functions, and round-trip theorems connect them.
-/

/-- Go byte strings: lists of byte values. -/
abbrev Bytes := List Nat

/-- The bytes of an ASCII Go string (faithful to Go's UTF-8 bytes whenever
every character is ASCII, which is hypothesised where it matters). -/
def strBytes (s : String) : Bytes := s.data.map Char.toNat

/-- All bytes of a byte string are below 256. -/
def ValidBytes (bs : Bytes) : Prop := ∀ b ∈ bs, b < 256

instance : DecidablePred ValidBytes := fun bs =>
  inferInstanceAs (Decidable (∀ b ∈ bs, b < 256))

/-! ### Protobuf: unsigned varints (`encoding/binary` as used by gogoproto) -/

/-- Protobuf base-128 varint encoding of a natural number. -/
def uvarintEnc (n : Nat) : Bytes :=
  if n < 128 then [n] else (n % 128 + 128) :: uvarintEnc (n / 128)
termination_by n
decreasing_by exact Nat.div_lt_self (by omega) (by omega)

/-- Protobuf varint decoding; returns the value and the remaining bytes. -/
def uvarintDec : Bytes → Option (Nat × Bytes)
  | [] => none
  | b :: rest =>
    if b < 128 then some (b, rest)
    else
      match uvarintDec rest with
      | some (m, r) => some ((b - 128) + 128 * m, r)
      | none => none

/-- A length-delimited protobuf field (wire type 2): tag, length, payload. -/
def lenDelim (fieldNum : Nat) (payload : Bytes) : Bytes :=
  uvarintEnc (fieldNum * 8 + 2) ++ (uvarintEnc payload.length ++ payload)

/-- Parse a protobuf message body into its (field number, payload) list.
All messages involved here consist solely of length-delimited fields, so
only wire type 2 is accepted.  `fuel` bounds the recursion; one field
consumes at least one byte, so `fuel := bs.length` always suffices. -/
def protoFields (fuel : Nat) (bs : Bytes) : Option (List (Nat × Bytes)) :=
  match fuel with
  | 0 => if bs.isEmpty then some [] else none
  | fuel + 1 =>
    if bs.isEmpty then some []
    else
      match uvarintDec bs with
      | none => none
      | some (tag, r1) =>
        if tag % 8 == 2 then
          match uvarintDec r1 with
          | none => none
          | some (len, r2) =>
            if len ≤ r2.length then
              match protoFields fuel (r2.drop len) with
              | some fs => some ((tag / 8, r2.take len) :: fs)
              | none => none
            else none
        else none

/-- Concatenated encoding of a whole field list. -/
def encodeFields (fields : List (Nat × Bytes)) : Bytes :=
  (fields.map (fun p => lenDelim p.1 p.2)).flatten

/-- Top-level protobuf message-body parse with the canonical fuel. -/
def decodeAllFields (bs : Bytes) : Option (List (Nat × Bytes)) :=
  protoFields bs.length bs

/-! ### Base64 (Go `encoding/base64` standard encoding with padding) -/

/-- The standard base64 alphabet. -/
def b64Alphabet : List Char :=
  "ABCDEFGHIJKLMNOPQRSTUVWXYZabcdefghijklmnopqrstuvwxyz0123456789+/".data

/-- The alphabet character for a 6-bit group. -/
def b64Char (n : Nat) : Char := b64Alphabet.getD n 'A'

/-- Standard base64 encoding of a byte string, with `=` padding,
mirroring `base64.StdEncoding.EncodeToString`. -/
def b64EncodeBytes : Bytes → List Char
  | [] => []
  | [a] => [b64Char (a / 4), b64Char (a % 4 * 16), '=', '=']
  | [a, b] => [b64Char (a / 4), b64Char (a % 4 * 16 + b / 16), b64Char (b % 16 * 4), '=']
  | a :: b :: c :: rest =>
    b64Char (a / 4) :: b64Char (a % 4 * 16 + b / 16) ::
      b64Char (b % 16 * 4 + c / 64) :: b64Char (c % 64) :: b64EncodeBytes rest

/-- Index of a character in the base64 alphabet
(`base64.StdEncoding.decodeMap`). -/
def b64Val (c : Char) : Option Nat := b64Alphabet.indexOf? c

/-- Standard base64 decoding, mirroring `base64.StdEncoding.DecodeString`
on padded input (the standard encoding does not reject non-zero trailing
bits). -/
def b64DecodeChars : List Char → Option Bytes
  | [] => some []
  | c1 :: c2 :: c3 :: c4 :: rest =>
    if c3 = '=' ∧ c4 = '=' ∧ rest = [] then
      match b64Val c1, b64Val c2 with
      | some n1, some n2 => some [n1 * 4 + n2 / 16]
      | _, _ => none
    else if c4 = '=' ∧ rest = [] then
      match b64Val c1, b64Val c2, b64Val c3 with
      | some n1, some n2, some n3 => some [n1 * 4 + n2 / 16, n2 % 16 * 16 + n3 / 4]
      | _, _, _ => none
    else
      match b64Val c1, b64Val c2, b64Val c3, b64Val c4 with
      | some n1, some n2, some n3, some n4 =>
        match b64DecodeChars rest with
        | some bs => some ((n1 * 4 + n2 / 16) :: (n2 % 16 * 16 + n3 / 4) :: (n3 % 4 * 64 + n4) :: bs)
        | none => none
      | _, _, _, _ => none
  | _ => none

/-! ### The ICA message payload

`MsgRequestAction` is built by the external Lumera SDK
(`cascade.CreateRequestActionMessage`); the spec documents it as "a
structured message with fields: creator address ..., an action-type tag
..., and opaque metadata".  `codectypes.Any` and `icatypes.CosmosTx` come
from cosmos-sdk/ibc-go and are ordinary protobuf messages. -/

/-- Modelled from the spec: the Request Action Message built by the
external SDK — "a structured message with fields: creator address
(overridden to the remote-account address ...), an action-type tag
(fixed to a storage/cascade variant ...), and opaque metadata". -/
structure MsgRequestAction where
  creator : Bytes
  actionType : Bytes
  metadata : Bytes
deriving DecidableEq, Repr

/-- `codectypes.Any`: a protobuf `Any` with a type URL and a value. -/
structure PbAny where
  typeUrl : Bytes
  value : Bytes
deriving DecidableEq, Repr

/-- Protobuf wire encoding of `MsgRequestAction`
(string fields 1, 2, 3, all length-delimited). -/
def encodeMsgRequestAction (m : MsgRequestAction) : Bytes :=
  encodeFields [(1, m.creator), (2, m.actionType), (3, m.metadata)]

/-- Protobuf decoding of `MsgRequestAction`: parse the field list, then
read each field by number with proto3 last-one-wins semantics and
empty-string defaults. -/
def fieldLookup (fs : List (Nat × Bytes)) (n : Nat) : Bytes :=
  (fs.filter (fun p => p.1 == n)).foldl (fun _ p => p.2) []

def decodeMsgRequestAction (bs : Bytes) : Option MsgRequestAction :=
  (decodeAllFields bs).map fun fs =>
    { creator := fieldLookup fs 1, actionType := fieldLookup fs 2, metadata := fieldLookup fs 3 }

/-- Protobuf wire encoding of `Any` (type_url = field 1, value = field 2). -/
def encodeAny (a : PbAny) : Bytes :=
  encodeFields [(1, a.typeUrl), (2, a.value)]

def decodeAny (bs : Bytes) : Option PbAny :=
  (decodeAllFields bs).map fun fs =>
    { typeUrl := fieldLookup fs 1, value := fieldLookup fs 2 }

/-- `gogoproto.Marshal` of `icatypes.CosmosTx`: the repeated `Any`
field 1, each message length-delimited. -/
def marshalCosmosTx (msgs : List PbAny) : Bytes :=
  encodeFields (msgs.map (fun a => (1, encodeAny a)))

/-- Protobuf decoding of `CosmosTx`: collect every occurrence of
field 1 and decode each as an `Any`. -/
def unmarshalCosmosTx (bs : Bytes) : Option (List PbAny) :=
  match decodeAllFields bs with
  | none => none
  | some fs => ((fs.filter (fun p => p.1 == 1)).map (fun p => p.2)).mapM decodeAny

/-! ### Go string helpers used by `tools/buildpacket/main.go` -/

/-- Go `unicode.IsSpace` on the Latin-1 range (space, \t, \n, \v, \f, \r,
NEL, NBSP), as used by `strings.TrimSpace`. -/
def goIsSpace (c : Char) : Bool :=
  c = ' ' || c = '\t' || c = '\n' || c = '\x0b' || c = '\x0c' || c = '\r' ||
    c = '\x85' || c = '\xa0'

/-- Go `strings.TrimSpace`, rune-based. -/
def goTrimSpace (s : String) : String :=
  ⟨((s.data.dropWhile goIsSpace).reverse.dropWhile goIsSpace).reverse⟩

/-- Go `strings.Replace(s, old, new, 1)` on the character list, for
non-empty `old`: the first occurrence of `old` is replaced. -/
def replaceFirst (s old new : List Char) : List Char :=
  match s with
  | [] => []
  | c :: rest =>
    if old.isPrefixOf (c :: rest) then new ++ (c :: rest).drop old.length
    else c :: replaceFirst rest old new

/-- Go `strings.Replace(s, old, new, 1)` (an empty `old` inserts `new`
once at the start). -/
def goReplaceOnce (s old new : String) : String :=
  if old.data.isEmpty then ⟨new.data ++ s.data⟩ else ⟨replaceFirst s.data old.data new.data⟩

/-- The gRPC endpoint normalisation of `main.go` line 96:
`strings.Replace(*grpcAddr, "0.0.0.0", "localhost", 1)`. -/
def normalizeGRPCAddr (s : String) : String := goReplaceOnce s "0.0.0.0" "localhost"

/-! ### Packet Builder flags (`flag.String` definitions of `main.go`) -/

/-- The six command-line flags after `flag.Parse`. -/
structure Flags where
  mnemonic : String
  icaAddress : String
  grpcAddr : String
  chainID : String
  file : String
  ownerHRP : String
deriving DecidableEq, Repr

/-- Flag parsing: every flag defaults to the empty string except
`--owner-hrp`, which defaults to `"osmo"`. -/
def parseFlags (mnemonic icaAddress grpcAddr chainID file ownerHRP : Option String) : Flags :=
  { mnemonic := mnemonic.getD "", icaAddress := icaAddress.getD "",
    grpcAddr := grpcAddr.getD "", chainID := chainID.getD "",
    file := file.getD "", ownerHRP := ownerHRP.getD "osmo" }

/-- The required-flag check list of `main.go` lines 39-45, in source
order. -/
def requiredChecks (f : Flags) : List (String × String) :=
  [("mnemonic", f.mnemonic), ("ica-address", f.icaAddress), ("grpc-addr", f.grpcAddr),
   ("chain-id", f.chainID), ("file", f.file)]

/-- The first required flag whose value trims to empty, if any
(the loop exits on the first such flag). -/
def firstMissingFlag (f : Flags) : Option String :=
  ((requiredChecks f).find? (fun p => goTrimSpace p.2 == "")).map (fun p => p.1)

/-! ### The Transport Packet JSON and a flat-JSON-object parser -/

/-- The Transport Packet JSON written by `fmt.Printf` at `main.go`
line 144 (`\x7b` and `\x7d` are the literal braces). -/
def packetJSON (b64 : String) : String :=
  "\x7b\"type\":\"TYPE_EXECUTE_TX\",\"data\":\"" ++ b64 ++ "\",\"memo\":\"\"\x7d"

/-- Parse a JSON string literal (no escapes — none occur in the packet):
a leading quote, characters up to the next quote, and the closing quote. -/
def parseJString : List Char → Option (String × List Char)
  | '"' :: rest =>
    let inner := rest.takeWhile (fun c => c ≠ '"')
    if inner.length < rest.length then some (⟨inner⟩, rest.drop (inner.length + 1)) else none
  | _ => none

/-- Parse one `"key":"value"` member. -/
def parsePair (cs : List Char) : Option ((String × String) × List Char) :=
  match parseJString cs with
  | none => none
  | some (k, r1) =>
    match r1 with
    | ':' :: r2 =>
      match parseJString r2 with
      | none => none
      | some (v, r3) => some ((k, v), r3)
    | _ => none

/-- Parse the members of a flat JSON object after the opening brace:
one or more members separated by commas, then the closing brace, then
end of input. -/
def parseMembers (fuel : Nat) (cs : List Char) : Option (List (String × String)) :=
  match fuel with
  | 0 => none
  | fuel + 1 =>
    match parsePair cs with
    | none => none
    | some (kv, r) =>
      match r with
      | ',' :: r2 => (parseMembers fuel r2).map (fun ms => kv :: ms)
      | '\x7d' :: r2 => if r2 = [] then some [kv] else none
      | _ => none

/-- Parse an entire string as a single flat JSON object with string
values; fails unless the whole input is consumed. -/
def parseFlatObj (s : String) : Option (List (String × String)) :=
  match s.data with
  | '\x7b' :: rest => parseMembers rest.length rest
  | _ => none

/-- The raw character shape of one `"k":"v"` member followed by `r`. -/
def pairChars (k v : String) (r : List Char) : List Char :=
  '"' :: (k.data ++ ('"' :: ':' :: '"' :: (v.data ++ ('"' :: r))))

/-! ### The Packet Builder pipeline (`main.go` after validation) -/

/-- The SDK `cascade.UploadOptions` the builder adjusts before calling
`CreateRequestActionMessage`. -/
structure UploadOptions where
  icaCreatorAddress : String := ""
  appPubkey : Bytes := []
deriving DecidableEq, Repr

/-- `cascade.WithICACreatorAddress`. -/
def withICACreatorAddress (addr : String) (o : UploadOptions) : UploadOptions :=
  { o with icaCreatorAddress := addr }

/-- `cascade.WithAppPubkey`. -/
def withAppPubkey (pk : Bytes) (o : UploadOptions) : UploadOptions :=
  { o with appPubkey := pk }

/-- Outcomes of the external collaborators the builder calls, in the
order `main.go` calls them.  The SDK's message pieces (action type and
cascade metadata) are opaque byte strings it produces. -/
structure BuildEnv where
  mkdirTempRes : Except String Unit
  newKeyringRes : Except String Unit
  newAccountRes : Except String Unit
  lumeraAddrRes : Except String String
  keyRecordRes : Except String Unit
  pubKeyRes : Except String Bytes
  cascadeClientRes : Except String Unit
  sdkMsgErr : Option String
  sdkActionType : Bytes
  sdkMetadata : Bytes
deriving Repr

/-- Modelled from the spec: the external SDK's
`CreateRequestActionMessage` (not part of this repository) — "Override
two fields on the constructed message before finalizing: the creator
address must be overridden to the remote-account address (not the local
signer's address), and an application-level public key must be
attached"; the call site always sets `WithICACreatorAddress`, so the
returned message's creator is the option's address. -/
def createRequestActionMessage (env : BuildEnv) (opts : UploadOptions) :
    Except String MsgRequestAction :=
  match env.sdkMsgErr with
  | some e => .error e
  | none =>
    .ok { creator := strBytes opts.icaCreatorAddress,
          actionType := env.sdkActionType, metadata := env.sdkMetadata }

/-- Modelled from the spec: the Any type URL under which
`ica.PackRequestAny` packs the request-action message. -/
def msgRequestActionTypeUrl : Bytes := strBytes "/lumera.action.v1.MsgRequestAction"

/-- `ica.PackRequestAny`: pack the message into a `codectypes.Any`. -/
def packRequestAny (m : MsgRequestAction) : PbAny :=
  { typeUrl := msgRequestActionTypeUrl, value := encodeMsgRequestAction m }

/-- Observable result of one builder process run: the two output
streams, the exit code, and whether the temporary keyring directory was
created resp. removed by the end of the process. -/
structure RunState where
  stdout : String
  stderr : List String
  exitCode : Nat
  dirCreated : Bool
  dirRemoved : Bool
deriving DecidableEq, Repr

/-- The `fatal` helper (`main.go` lines 148-151): prints
`buildpacket: <msg>` on stderr and calls `os.Exit(1)`.  `os.Exit`
terminates the process immediately — deferred functions (in particular
the `defer os.RemoveAll(tmpDir)`) do NOT run, so `dirRemoved` stays
false. -/
def fatalExit (created : Bool) (lines : List String) (msg : String) : RunState :=
  { stdout := "", stderr := lines ++ ["buildpacket: " ++ msg], exitCode := 1,
    dirCreated := created, dirRemoved := false }

/-- The whole `main` of `tools/buildpacket/main.go`, replayed over the
collaborator outcomes in `env`. -/
def runMain (f : Flags) (env : BuildEnv) : RunState :=
  match firstMissingFlag f with
  | some name =>
    { stdout := "", stderr := ["--" ++ name ++ " is required"], exitCode := 1,
      dirCreated := false, dirRemoved := false }
  | none =>
    match env.mkdirTempRes with
    | .error e => fatalExit false [] ("create temp dir: " ++ e)
    | .ok _ =>
      match env.newKeyringRes with
      | .error e => fatalExit true [] ("create keyring: " ++ e)
      | .ok _ =>
        match env.newAccountRes with
        | .error e => fatalExit true [] ("import key from mnemonic: " ++ e)
        | .ok _ =>
          match env.lumeraAddrRes with
          | .error e => fatalExit true [] ("derive lumera address: " ++ e)
          | .ok lumeraAddr =>
            let lines1 := ["Derived lumera address: " ++ lumeraAddr]
            match env.keyRecordRes with
            | .error e => fatalExit true lines1 ("get key record: " ++ e)
            | .ok _ =>
              match env.pubKeyRes with
              | .error e => fatalExit true lines1 ("get pubkey: " ++ e)
              | .ok appPubkey =>
                let normalizedGRPC := normalizeGRPCAddr f.grpcAddr
                let lines2 := lines1 ++ ["Connecting to Lumera gRPC: " ++ normalizedGRPC]
                match env.cascadeClientRes with
                | .error e => fatalExit true lines2 ("create cascade client: " ++ e)
                | .ok _ =>
                  let uploadOpts := withAppPubkey appPubkey
                    (withICACreatorAddress f.icaAddress {})
                  match createRequestActionMessage env uploadOpts with
                  | .error e => fatalExit true lines2 ("CreateRequestActionMessage: " ++ e)
                  | .ok msg =>
                    let lines3 := lines2 ++
                      ["Built MsgRequestAction: creator=" ++ f.icaAddress]
                    let msgAny := packRequestAny msg
                    let cosmosTxBytes := marshalCosmosTx [msgAny]
                    { stdout := packetJSON ⟨b64EncodeBytes cosmosTxBytes⟩,
                      stderr := lines3, exitCode := 0,
                      dirCreated := true, dirRemoved := true }

/-- A `BuildEnv` in which every collaborator call succeeds. -/
def EnvOk (env : BuildEnv) : Prop :=
  (∃ u, env.mkdirTempRes = .ok u) ∧ (∃ u, env.newKeyringRes = .ok u) ∧
  (∃ u, env.newAccountRes = .ok u) ∧ (∃ a, env.lumeraAddrRes = .ok a) ∧
  (∃ u, env.keyRecordRes = .ok u) ∧ (∃ pk, env.pubKeyRes = .ok pk) ∧
  (∃ u, env.cascadeClientRes = .ok u) ∧ env.sdkMsgErr = none

/-- The message the builder constructs on a successful run. -/
def builtMsg (f : Flags) (env : BuildEnv) : MsgRequestAction :=
  { creator := strBytes f.icaAddress, actionType := env.sdkActionType,
    metadata := env.sdkMetadata }

/-- The CosmosTx bytes the builder serialises on a successful run. -/
def builtTxBytes (f : Flags) (env : BuildEnv) : Bytes :=
  marshalCosmosTx [packRequestAny (builtMsg f env)]

/-- Concrete inputs for witnesses: a full flag set and an all-successful
collaborator environment. -/
def wFlags : Flags :=
  { mnemonic := "abandon ability able", icaAddress := "lumera1icaaddr",
    grpcAddr := "0.0.0.0:9090", chainID := "lumera-testnet-2",
    file := "/tmp/test.bin", ownerHRP := "osmo" }

def wEnv : BuildEnv :=
  { mkdirTempRes := .ok (), newKeyringRes := .ok (), newAccountRes := .ok (),
    lumeraAddrRes := .ok "lumera1localaddr", keyRecordRes := .ok (),
    pubKeyRes := .ok [2, 200, 17], cascadeClientRes := .ok (),
    sdkMsgErr := none, sdkActionType := strBytes "ACTION_TYPE_CASCADE",
    sdkMetadata := [0, 255, 10, 77] }

/-- Flags with only `--file` blank (whitespace-only). -/
def wFlagsNoFile : Flags := { wFlags with file := "   " }

/-! ### Claim C5: the temporary keyring directory on failure paths -/

/-- An environment whose keyring creation fails (after the temp
directory was created). -/
def c5Env : BuildEnv := { wEnv with newKeyringRes := .error "keyring backend unavailable" }

/-! ### Submission Driver (`ica_test.go`) -/

/-- One entry of the `list-actions` JSON response
(`verifyActionCreated`). -/
structure ActionEntry where
  creator : String
  actionID : String
  actionType : String
  state : String
deriving DecidableEq, Repr

/-- `verifyActionCreated`: scan the action list for the first entry
whose creator matches; require its type to be `ACTION_TYPE_CASCADE`;
require that some entry matched.  `true` means the verification passes. -/
def verifyActionCreated (actions : List ActionEntry) (creator : String) : Bool :=
  match actions.find? (fun a => a.creator == creator) with
  | some a => a.actionType == "ACTION_TYPE_CASCADE"
  | none => false

/-- A parsed broadcast/query response (`code`, `txhash`, `raw_log`). -/
structure TxResp where
  code : Int
  txhash : String
  rawLog : String
deriving DecidableEq, Repr

/-- The responses the driver consumes, in flow order; `none` models a
response whose JSON failed to unmarshal.  For the by-hash execution
query, the outer `none` models `osmosis.Exec` itself erroring (the
driver only logs a warning there and continues). -/
structure DriverEnv where
  registerResp : Option TxResp
  bankResp : Option TxResp
  sendResp : Option TxResp
  queryTxExec : Option (Option TxResp)
deriving DecidableEq, Repr

inductive FlowOutcome where
  | failed (stage : String)
  | passed
deriving DecidableEq, Repr

/-- The response-checking skeleton of the Submission Driver
(`testRegisterICA` → `fundICA` → `testExecuteActionViaICA`): each
`require.NoError`/`require.Equal(0, code)` aborts the test on
violation; after block inclusion the tx is re-queried by hash and a
parsed non-zero execution code also aborts. -/
def driverFlow (env : DriverEnv) : FlowOutcome :=
  match env.registerResp with
  | none => .failed "register-ica-unmarshal"
  | some r =>
    if r.code ≠ 0 then .failed "register-ica-code"
    else
      match env.bankResp with
      | none => .failed "fund-ica-unmarshal"
      | some b =>
        if b.code ≠ 0 then .failed "fund-ica-code"
        else
          match env.sendResp with
          | none => .failed "send-tx-unmarshal"
          | some sr =>
            if sr.code ≠ 0 then .failed "send-tx-code"
            else
              match env.queryTxExec with
              | some (some q) =>
                if q.code ≠ 0 then .failed "send-tx-exec-code" else .passed
              | _ => .passed

/-- `require.Eventually` timeout (2 minutes) in seconds. -/
def icaPollTimeoutSecs : Nat := 120

/-- `require.Eventually` tick (3 seconds) in seconds. -/
def icaPollTickSecs : Nat := 3

/-- The number of poll attempts the bounded timeout allows. -/
def icaPollTicks : Nat := icaPollTimeoutSecs / icaPollTickSecs

/-- One `require.Eventually` loop over `tryQueryICAAddress` outcomes:
`results k = none` models a query error at tick `k`, `some addr` a
response; the condition succeeds when the address is non-empty.  Stops
at the first success, or returns `none` when the attempts are
exhausted (the driver then fails with "ICA address was not registered
in time" instead of hanging). -/
def pollICAAux (results : Nat → Option String) : Nat → Nat → Option String
  | _, 0 => none
  | k, rem + 1 =>
    match results k with
    | some addr => if addr ≠ "" then some addr else pollICAAux results (k + 1) rem
    | none => pollICAAux results (k + 1) rem

/-- The Step-2 poll of `testRegisterICA`. -/
def pollICAAddress (results : Nat → Option String) : Option String :=
  pollICAAux results 0 icaPollTicks

/-- One relayer channel as returned by `r.GetChannels`. -/
structure IBCChannel where
  channelID : String
  portID : String
deriving DecidableEq, Repr

/-- Go `strings.HasPrefix(s, pre)`. -/
def hasPrefixGo (s pre : String) : Bool := pre.data.isPrefixOf s.data

/-- `findICAChannel`: the first channel whose port ID starts with the
ICA controller port marker; `none` models the `t.Fatalf` failure when
no such channel exists. -/
def findICAChannel (channels : List IBCChannel) : Option String :=
  (channels.find? (fun ch => hasPrefixGo ch.portID "icacontroller-")).map
    (fun ch => ch.channelID)

/-! ### Genesis claims patching (`chain_config.go`) -/

/-- A JSON/genesis value as handled through Go `map[string]interface{}`:
only strings and nested objects are inspected by this code. -/
inductive GVal where
  | str (s : String)
  | obj (fields : List (String × GVal))
  | other

/-- Go map assignment on the association-list model. -/
def setKey : List (String × GVal) → String → GVal → List (String × GVal)
  | [], k, v => [(k, v)]
  | (k2, v2) :: rest, k, v =>
    if k2 == k then (k2, v) :: rest else (k2, v2) :: setKey rest k v

/-- Go map lookup. -/
def getKey (m : List (String × GVal)) (k : String) : Option GVal :=
  (m.find? (fun p => p.1 == k)).map (fun p => p.2)

/-- All-decimal-digit run to a number (`big.Int.SetString` base 10
digits). -/
def digitsToNat (cs : List Char) : Option Nat :=
  if cs = [] then none
  else if cs.all (fun c => c.isDigit) then
    some (cs.foldl (fun acc c => acc * 10 + (c.toNat - 48)) 0)
  else none

/-- `big.Int.SetString(s, 10)`: optional sign, then a non-empty
decimal-digit run. -/
def parseDecInt (s : String) : Option Int :=
  match s.data with
  | '+' :: rest => (digitsToNat rest).map (fun n => (n : Int))
  | '-' :: rest => (digitsToNat rest).map (fun n => -(n : Int))
  | cs => (digitsToNat cs).map (fun n => (n : Int))

/-- The accumulation loop of `setClaimsTotalFromCSV`: sum the parsed
second field over the rows, skipping rows with fewer than two fields and
rows whose amount does not parse. -/
def claimsTotal (rows : List (List String)) : Int :=
  rows.foldl
    (fun total record =>
      match record with
      | _ :: amt :: _ =>
        match parseDecInt amt with
        | some v => total + v
        | none => total
      | _ => total)
    0

/-- `setClaimsTotalFromCSV` (`chain_config.go` lines 116-157).
`csvFile = none` models `os.Open` failing (no claims.csv on the host —
skip); otherwise `rows` are the records the CSV reader yields before
its first read error (the loop breaks on any read error, including
EOF).  A zero total also leaves the genesis untouched; otherwise
`app_state.claim.total_claimable_amount` is set to the decimal string
of the total, creating the `claim` object when the existing entry is
missing or not an object.  Every path returns a nil error. -/
def setClaimsTotalFromCSV (csvFile : Option (List (List String)))
    (appState : List (String × GVal)) : Except String (List (String × GVal)) :=
  match csvFile with
  | none => .ok appState
  | some rows =>
    let total := claimsTotal rows
    if total = 0 then .ok appState
    else
      let claim := match getKey appState "claim" with
        | some (.obj m) => m
        | _ => []
      .ok (setKey appState "claim"
        (.obj (setKey claim "total_claimable_amount" (.str (toString total)))))

/-! ### Theorems -/

theorem strBytes_valid (s : String) (h : ∀ c ∈ s.data, c.toNat < 128) :
    ValidBytes (strBytes s) := by
  intro b hb
  simp only [strBytes, List.mem_map] at hb
  obtain ⟨c, hc, rfl⟩ := hb
  exact Nat.lt_of_lt_of_le (h c hc) (by norm_num)

theorem uvarintEnc_ne_nil (n : Nat) : uvarintEnc n ≠ [] := by
  unfold uvarintEnc
  split <;> simp

theorem uvarintEnc_valid (n : Nat) : ValidBytes (uvarintEnc n) := by
  induction n using Nat.strong_induction_on with
  | _ n ih =>
    unfold uvarintEnc
    split
    · intro b hb
      simp only [List.mem_singleton] at hb
      omega
    · intro b hb
      simp only [List.mem_cons] at hb
      rcases hb with h | h
      · omega
      · exact ih (n / 128) (Nat.div_lt_self (by omega) (by omega)) b h

/-- Decoding inverts encoding, leaving trailing bytes untouched. -/
theorem uvarintDec_enc (n : Nat) (rest : Bytes) :
    uvarintDec (uvarintEnc n ++ rest) = some (n, rest) := by
  induction n using Nat.strong_induction_on generalizing rest with
  | _ n ih =>
    unfold uvarintEnc
    split
    · simp [uvarintDec, *]
    · have hrec := ih (n / 128) (Nat.div_lt_self (by omega) (by omega)) rest
      simp only [List.cons_append, uvarintDec, hrec]
      have hge : ¬ (n % 128 + 128 < 128) := by omega
      simp only [if_neg hge, List.append_eq, hrec]
      have heq : n % 128 + 128 - 128 + 128 * (n / 128) = n := by omega
      rw [heq]

theorem lenDelim_valid (fieldNum : Nat) (payload : Bytes)
    (h : ValidBytes payload) : ValidBytes (lenDelim fieldNum payload) := by
  intro b hb
  simp only [lenDelim, List.mem_append] at hb
  rcases hb with hb | hb | hb
  · exact uvarintEnc_valid _ b hb
  · exact uvarintEnc_valid _ b hb
  · exact h b hb

theorem protoFields_nil (fuel : Nat) : protoFields fuel [] = some [] := by
  cases fuel <;> simp [protoFields]

/-- One encoded field at the front of the stream parses off, costing one
unit of fuel. -/
theorem protoFields_cons (fuel fieldNum : Nat) (payload rest : Bytes) :
    protoFields (fuel + 1) (lenDelim fieldNum payload ++ rest) =
      (protoFields fuel rest).map (fun fs => (fieldNum, payload) :: fs) := by
  have hne : lenDelim fieldNum payload ++ rest ≠ [] := by
    simp only [lenDelim, List.append_assoc, ne_eq, List.append_eq_nil]
    intro h
    exact uvarintEnc_ne_nil _ h.1
  have hbs : (lenDelim fieldNum payload ++ rest).isEmpty = false := by
    cases h : lenDelim fieldNum payload ++ rest with
    | nil => exact absurd h hne
    | cons a l => simp
  have hdec1 :
      uvarintDec (lenDelim fieldNum payload ++ rest) =
        some (fieldNum * 8 + 2, uvarintEnc payload.length ++ (payload ++ rest)) := by
    simp only [lenDelim, List.append_assoc]
    exact uvarintDec_enc _ _
  have htag : (fieldNum * 8 + 2) % 8 == 2 := by
    simp only [beq_iff_eq]
    omega
  have hdec2 :
      uvarintDec (uvarintEnc payload.length ++ (payload ++ rest)) =
        some (payload.length, payload ++ rest) := uvarintDec_enc _ _
  have hlen : payload.length ≤ (payload ++ rest).length := by
    simp [List.length_append]
  have hdiv : (fieldNum * 8 + 2) / 8 = fieldNum := by omega
  simp only [protoFields, hbs, Bool.false_eq_true, if_false, hdec1, htag, if_true,
    hdec2, hlen, if_pos, List.take_left, List.drop_left, hdiv]
  cases protoFields fuel rest <;> simp

/-- Parsing the concatenated encoding recovers the field list exactly,
for any fuel of at least the number of fields. -/
theorem protoFields_encodeFields (fields : List (Nat × Bytes)) (fuel : Nat)
    (hfuel : fields.length ≤ fuel) :
    protoFields fuel (encodeFields fields) = some fields := by
  induction fields generalizing fuel with
  | nil => simp [encodeFields, protoFields_nil]
  | cons p fs ih =>
    obtain ⟨fuel, rfl⟩ : ∃ f, fuel = f + 1 := by
      cases fuel
      · simp at hfuel
      · exact ⟨_, rfl⟩
    simp only [encodeFields, List.map_cons, List.flatten_cons]
    rw [protoFields_cons]
    rw [show (List.map (fun p => lenDelim p.1 p.2) fs).flatten = encodeFields fs from rfl]
    rw [ih fuel (by simpa using Nat.le_of_succ_le_succ hfuel)]
    rfl

theorem encodeFields_length_ge (fields : List (Nat × Bytes)) :
    fields.length ≤ (encodeFields fields).length := by
  induction fields with
  | nil => simp [encodeFields]
  | cons p fs ih =>
    have hcons : encodeFields (p :: fs) = lenDelim p.1 p.2 ++ encodeFields fs := rfl
    have h1 : 0 < (lenDelim p.1 p.2).length := by
      refine List.length_pos.mpr ?_
      simp only [lenDelim, ne_eq, List.append_eq_nil]
      intro h
      exact uvarintEnc_ne_nil _ h.1
    rw [hcons, List.length_append, List.length_cons]
    omega

theorem encodeFields_valid (fields : List (Nat × Bytes))
    (h : ∀ p ∈ fields, ValidBytes p.2) : ValidBytes (encodeFields fields) := by
  intro b hb
  simp only [encodeFields, List.mem_flatten, List.mem_map] at hb
  obtain ⟨l, ⟨p, hp, rfl⟩, hbl⟩ := hb
  exact lenDelim_valid _ _ (h p hp) b hbl

theorem decodeAllFields_encodeFields (fields : List (Nat × Bytes)) :
    decodeAllFields (encodeFields fields) = some fields :=
  protoFields_encodeFields fields _ (encodeFields_length_ge fields)

theorem b64Val_b64Char (n : Nat) (h : n < 64) : b64Val (b64Char n) = some n := by
  interval_cases n <;> rfl

theorem b64Char_ne_eq_sign (n : Nat) : b64Char n ≠ '=' := by
  by_cases h : n < 64
  · interval_cases n <;> simp [b64Char, b64Alphabet]
  · have : b64Alphabet.length ≤ n := by
      have : b64Alphabet.length = 64 := rfl
      omega
    rw [b64Char, List.getD_eq_default _ _ this]
    simp

theorem b64Char_ne_quote (n : Nat) : b64Char n ≠ '"' := by
  by_cases h : n < 64
  · interval_cases n <;> simp [b64Char, b64Alphabet]
  · have : b64Alphabet.length ≤ n := by
      have : b64Alphabet.length = 64 := rfl
      omega
    rw [b64Char, List.getD_eq_default _ _ this]
    simp

/-- Every character emitted by the encoder is either `'='` or an
alphabet character; in particular never a double quote. -/
theorem b64EncodeBytes_ne_quote (bs : Bytes) :
    ∀ c ∈ b64EncodeBytes bs, c ≠ '"' := by
  induction bs using b64EncodeBytes.induct with
  | case1 => simp [b64EncodeBytes]
  | case2 a =>
    simp only [b64EncodeBytes, List.mem_cons, List.mem_singleton]
    rintro c (rfl | rfl | rfl | rfl | h)
    any_goals simp [b64Char_ne_quote]
    · simp at h
  | case3 a b =>
    simp only [b64EncodeBytes, List.mem_cons, List.mem_singleton]
    rintro c (rfl | rfl | rfl | rfl | h)
    any_goals simp [b64Char_ne_quote]
    · simp at h
  | case4 a b c rest ih =>
    simp only [b64EncodeBytes, List.mem_cons]
    rintro x (rfl | rfl | rfl | rfl | h)
    any_goals simp [b64Char_ne_quote]
    · exact ih x h

/-- Decoding inverts encoding on valid byte strings. -/
theorem b64_roundtrip (bs : Bytes) (h : ValidBytes bs) :
    b64DecodeChars (b64EncodeBytes bs) = some bs := by
  induction bs using b64EncodeBytes.induct with
  | case1 => rfl
  | case2 a =>
    have ha : a < 256 := h a (by simp)
    have h1 : a / 4 < 64 := by omega
    have h2 : a % 4 * 16 < 64 := by omega
    simp only [b64EncodeBytes, b64DecodeChars, b64Val_b64Char _ h1, b64Val_b64Char _ h2,
      and_self, if_true, reduceIte]
    congr 1
    have : a / 4 * 4 + a % 4 * 16 / 16 = a := by omega
    rw [this]
  | case3 a b =>
    have ha : a < 256 := h a (by simp)
    have hb : b < 256 := h b (by simp)
    have h1 : a / 4 < 64 := by omega
    have h2 : a % 4 * 16 + b / 16 < 64 := by omega
    have h3 : b % 16 * 4 < 64 := by omega
    have hne : ¬(b64Char (b % 16 * 4) = '=' ∧ '=' = '=' ∧ ([] : List Char) = []) := by
      simp [b64Char_ne_eq_sign]
    simp only [b64EncodeBytes, b64DecodeChars, if_neg hne, and_self, if_true,
      b64Val_b64Char _ h1, b64Val_b64Char _ h2, b64Val_b64Char _ h3, reduceIte]
    have e1 : a / 4 * 4 + (a % 4 * 16 + b / 16) / 16 = a := by omega
    have e2 : (a % 4 * 16 + b / 16) % 16 * 16 + b % 16 * 4 / 4 = b := by omega
    rw [e1, e2]
    simp [b64Char_ne_eq_sign]
  | case4 a b c rest ih =>
    have ha : a < 256 := h a (by simp)
    have hb : b < 256 := h b (by simp)
    have hc : c < 256 := h c (by simp)
    have hrest : ValidBytes rest := by
      intro x hx
      exact h x (by simp [hx])
    have h1 : a / 4 < 64 := by omega
    have h2 : a % 4 * 16 + b / 16 < 64 := by omega
    have h3 : b % 16 * 4 + c / 64 < 64 := by omega
    have h4 : c % 64 < 64 := by omega
    have hne1 : ¬(b64Char (b % 16 * 4 + c / 64) = '=' ∧ b64Char (c % 64) = '=' ∧
        b64EncodeBytes rest = []) := by
      simp [b64Char_ne_eq_sign]
    have hne2 : ¬(b64Char (c % 64) = '=' ∧ b64EncodeBytes rest = []) := by
      simp [b64Char_ne_eq_sign]
    simp only [b64EncodeBytes, b64DecodeChars, if_neg hne1, if_neg hne2,
      b64Val_b64Char _ h1, b64Val_b64Char _ h2, b64Val_b64Char _ h3, b64Val_b64Char _ h4,
      ih hrest]
    congr 1
    have e1 : a / 4 * 4 + (a % 4 * 16 + b / 16) / 16 = a := by omega
    have e2 : (a % 4 * 16 + b / 16) % 16 * 16 + (b % 16 * 4 + c / 64) / 4 = b := by omega
    have e3 : (b % 16 * 4 + c / 64) % 4 * 64 + c % 64 = c := by omega
    rw [e1, e2, e3]

theorem decodeMsgRequestAction_enc (m : MsgRequestAction) :
    decodeMsgRequestAction (encodeMsgRequestAction m) = some m := by
  rw [decodeMsgRequestAction, encodeMsgRequestAction, decodeAllFields_encodeFields]
  rfl

theorem decodeAny_enc (a : PbAny) :
    decodeAny (encodeAny a) = some a := by
  rw [decodeAny, encodeAny, decodeAllFields_encodeFields]
  rfl

theorem unmarshalCosmosTx_single (a : PbAny) :
    unmarshalCosmosTx (marshalCosmosTx [a]) = some [a] := by
  rw [unmarshalCosmosTx, marshalCosmosTx, List.map_cons, List.map_nil,
    decodeAllFields_encodeFields]
  simp [List.mapM, List.mapM.loop, decodeAny_enc]

theorem encodeMsgRequestAction_valid (m : MsgRequestAction)
    (h1 : ValidBytes m.creator) (h2 : ValidBytes m.actionType)
    (h3 : ValidBytes m.metadata) : ValidBytes (encodeMsgRequestAction m) := by
  refine encodeFields_valid _ ?_
  intro p hp
  simp only [List.mem_cons, List.mem_singleton] at hp
  rcases hp with rfl | rfl | rfl | h
  · exact h1
  · exact h2
  · exact h3
  · simp at h

theorem encodeAny_valid (a : PbAny) (h1 : ValidBytes a.typeUrl)
    (h2 : ValidBytes a.value) : ValidBytes (encodeAny a) := by
  refine encodeFields_valid _ ?_
  intro p hp
  simp only [List.mem_cons, List.mem_singleton] at hp
  rcases hp with rfl | rfl | h
  · exact h1
  · exact h2
  · simp at h

theorem marshalCosmosTx_single_valid (a : PbAny) (h1 : ValidBytes a.typeUrl)
    (h2 : ValidBytes a.value) : ValidBytes (marshalCosmosTx [a]) := by
  refine encodeFields_valid _ ?_
  intro p hp
  simp only [List.map_cons, List.map_nil, List.mem_singleton] at hp
  subst hp
  exact encodeAny_valid a h1 h2

/-- On a successful run `runMain` produces exactly the packet JSON of
the base64-encoded CosmosTx bytes, exit code 0, and the temp directory
is created and removed. -/
theorem runMain_success (f : Flags) (env : BuildEnv)
    (hflags : firstMissingFlag f = none) (henv : EnvOk env) :
    (runMain f env).stdout = packetJSON ⟨b64EncodeBytes (builtTxBytes f env)⟩ ∧
    (runMain f env).exitCode = 0 ∧
    (runMain f env).dirCreated = true ∧ (runMain f env).dirRemoved = true := by
  obtain ⟨⟨u1, h1⟩, ⟨u2, h2⟩, ⟨u3, h3⟩, ⟨a, h4⟩, ⟨u5, h5⟩, ⟨pk, h6⟩, ⟨u7, h7⟩, h8⟩ := henv
  simp [runMain, hflags, h1, h2, h3, h4, h5, h6, h7, h8,
    createRequestActionMessage, builtTxBytes, builtMsg, withAppPubkey,
    withICACreatorAddress]

theorem takeWhile_until_quote (l r : List Char) (hl : ∀ c ∈ l, c ≠ '"') :
    (l ++ '"' :: r).takeWhile (fun c => decide (c ≠ '"')) = l := by
  induction l with
  | nil => simp [List.takeWhile]
  | cons c l ih =>
    have hc : c ≠ '"' := hl c (by simp)
    simp only [List.cons_append, List.takeWhile_cons, decide_eq_true_eq]
    rw [if_pos hc, ih (fun x hx => hl x (by simp [hx]))]

theorem drop_past_quote (l r : List Char) :
    (l ++ '"' :: r).drop (l.length + 1) = r := by
  rw [List.append_cons, List.drop_left']
  simp

theorem parseJString_exact (k : String) (r : List Char)
    (hk : ∀ c ∈ k.data, c ≠ '"') :
    parseJString ('"' :: (k.data ++ '"' :: r)) = some (k, r) := by
  have hlen : k.data.length < (k.data ++ '"' :: r).length := by
    simp [List.length_append]
  simp only [parseJString, takeWhile_until_quote _ _ hk, if_pos hlen,
    drop_past_quote]

theorem parsePair_exact (k v : String) (r : List Char)
    (hk : ∀ c ∈ k.data, c ≠ '"') (hv : ∀ c ∈ v.data, c ≠ '"') :
    parsePair (pairChars k v r) = some ((k, v), r) := by
  simp only [pairChars, parsePair, parseJString_exact k _ hk,
    parseJString_exact v _ hv]

theorem parseMembers_cons (fuel : Nat) (k v : String) (r2 : List Char)
    (hk : ∀ c ∈ k.data, c ≠ '"') (hv : ∀ c ∈ v.data, c ≠ '"') :
    parseMembers (fuel + 1) (pairChars k v (',' :: r2)) =
      (parseMembers fuel r2).map (fun ms => (k, v) :: ms) := by
  simp only [parseMembers, parsePair_exact k v _ hk hv]

theorem parseMembers_last (fuel : Nat) (k v : String)
    (hk : ∀ c ∈ k.data, c ≠ '"') (hv : ∀ c ∈ v.data, c ≠ '"') :
    parseMembers (fuel + 1) (pairChars k v ['\x7d']) = some [(k, v)] := by
  simp only [parseMembers, parsePair_exact k v _ hk hv]
  rfl

theorem pairChars_length (k v : String) (r : List Char) :
    (pairChars k v r).length = k.data.length + v.data.length + r.length + 5 := by
  simp only [pairChars, List.length_cons, List.length_append]
  omega

/-- The packet string decomposes into the flat-object member shape. -/
theorem packetJSON_data (b64 : String) :
    (packetJSON b64).data =
      '\x7b' :: pairChars "type" "TYPE_EXECUTE_TX"
        (',' :: pairChars "data" b64
          (',' :: pairChars "memo" "" ['\x7d'])) := by
  simp [packetJSON, pairChars, String.data_append]

theorem parseFlatObj_open (s : String) (rest : List Char)
    (h : s.data = '\x7b' :: rest) :
    parseFlatObj s = parseMembers rest.length rest := by
  unfold parseFlatObj
  rw [h]
  rfl

/-- Parsing the emitted packet as a flat JSON object yields exactly the
three members `type`, `data`, `memo` — provided the data value contains
no quote character (true of base64 output). -/
theorem parseFlatObj_packet (b64 : String) (hb : ∀ c ∈ b64.data, c ≠ '"') :
    parseFlatObj (packetJSON b64) =
      some [("type", "TYPE_EXECUTE_TX"), ("data", b64), ("memo", "")] := by
  have htype : ∀ c ∈ ("type" : String).data, c ≠ '"' := by decide
  have htyval : ∀ c ∈ ("TYPE_EXECUTE_TX" : String).data, c ≠ '"' := by decide
  have hdata : ∀ c ∈ ("data" : String).data, c ≠ '"' := by decide
  have hmemo : ∀ c ∈ ("memo" : String).data, c ≠ '"' := by decide
  have hempty : ∀ c ∈ ("" : String).data, c ≠ '"' := by decide
  have hdl : b64.data.length = b64.length := rfl
  rw [parseFlatObj_open _ _ (packetJSON_data b64)]
  set rest2 := pairChars "data" b64 (',' :: pairChars "memo" "" ['\x7d']) with hrest2
  set rest3 := pairChars "memo" "" ['\x7d'] with hrest3
  have hl1 : (pairChars "type" "TYPE_EXECUTE_TX" (',' :: rest2)).length =
      rest2.length + 25 := by
    rw [pairChars_length]
    norm_num
    omega
  have hl2 : rest2.length = b64.length + rest3.length + 10 := by
    rw [hrest2, pairChars_length]
    norm_num [hdl]
    omega
  have hl3 : rest3.length = 10 := by
    rw [hrest3, pairChars_length]
    simp
  obtain ⟨m1, hm1⟩ : ∃ m, (pairChars "type" "TYPE_EXECUTE_TX" (',' :: rest2)).length
      = m + 1 :=
    ⟨(pairChars "type" "TYPE_EXECUTE_TX" (',' :: rest2)).length - 1, by omega⟩
  rw [hm1, parseMembers_cons _ _ _ _ htype htyval]
  obtain ⟨m2, hm2⟩ : ∃ m, m1 = m + 1 := ⟨m1 - 1, by omega⟩
  rw [hm2, hrest2, parseMembers_cons _ _ _ _ hdata hb]
  obtain ⟨m3, hm3⟩ : ∃ m, m2 = m + 1 := ⟨m2 - 1, by omega⟩
  rw [hm3, hrest3, parseMembers_last _ _ _ hmemo hempty]
  rfl

/-! ### Claim C2 and C1: the emitted packet and its decoded content -/

theorem builtTxBytes_valid (f : Flags) (env : BuildEnv)
    (hica : ∀ c ∈ f.icaAddress.data, c.toNat < 128)
    (hat : ValidBytes env.sdkActionType) (hmd : ValidBytes env.sdkMetadata) :
    ValidBytes (builtTxBytes f env) := by
  refine marshalCosmosTx_single_valid _ ?_ ?_
  · show ValidBytes msgRequestActionTypeUrl
    decide
  · exact encodeMsgRequestAction_valid _ (strBytes_valid _ hica) hat hmd

/-- C2: on every successful run the Packet Builder writes to standard
output exactly one JSON object with precisely the three string fields
`type`, `data`, `memo`, with `type = "TYPE_EXECUTE_TX"` and `memo = ""`,
and the exit code is 0; diagnostics go to the separate stderr stream, so
stdout is exactly the packet JSON. -/
theorem c2_stdout_exact_packet (f : Flags) (env : BuildEnv)
    (hflags : firstMissingFlag f = none) (henv : EnvOk env) :
    ∃ d : String,
      (runMain f env).stdout = packetJSON d ∧
      parseFlatObj (runMain f env).stdout =
        some [("type", "TYPE_EXECUTE_TX"), ("data", d), ("memo", "")] ∧
      (runMain f env).exitCode = 0 := by
  obtain ⟨hout, hexit, _, _⟩ := runMain_success f env hflags henv
  refine ⟨⟨b64EncodeBytes (builtTxBytes f env)⟩, hout, ?_, hexit⟩
  rw [hout]
  exact parseFlatObj_packet _ (fun c hc => b64EncodeBytes_ne_quote _ c hc)

/-- C1: base64-decoding the `data` field of the emitted packet and
protobuf-decoding the result yields a CosmosTx with exactly one message,
whose creator is the `--ica-address` input — never the locally derived
address (whenever the two differ). -/
theorem c1_data_decodes_to_ica_creator (f : Flags) (env : BuildEnv)
    (hflags : firstMissingFlag f = none) (henv : EnvOk env)
    (hica : ∀ c ∈ f.icaAddress.data, c.toNat < 128)
    (hat : ValidBytes env.sdkActionType) (hmd : ValidBytes env.sdkMetadata) :
    ∃ (d : String) (a : PbAny) (m : MsgRequestAction),
      parseFlatObj (runMain f env).stdout =
        some [("type", "TYPE_EXECUTE_TX"), ("data", d), ("memo", "")] ∧
      b64DecodeChars d.data = some (builtTxBytes f env) ∧
      unmarshalCosmosTx (builtTxBytes f env) = some [a] ∧
      decodeMsgRequestAction a.value = some m ∧
      m.creator = strBytes f.icaAddress ∧
      (∀ lumeraAddr, env.lumeraAddrRes = .ok lumeraAddr →
        strBytes lumeraAddr ≠ strBytes f.icaAddress →
        m.creator ≠ strBytes lumeraAddr) := by
  obtain ⟨hout, _, _, _⟩ := runMain_success f env hflags henv
  refine ⟨⟨b64EncodeBytes (builtTxBytes f env)⟩, packRequestAny (builtMsg f env),
    builtMsg f env, ?_, ?_, ?_, ?_, rfl, ?_⟩
  · rw [hout]
    exact parseFlatObj_packet _ (fun c hc => b64EncodeBytes_ne_quote _ c hc)
  · exact b64_roundtrip _ (builtTxBytes_valid f env hica hat hmd)
  · exact unmarshalCosmosTx_single _
  · show decodeMsgRequestAction (encodeMsgRequestAction (builtMsg f env)) = _
    exact decodeMsgRequestAction_enc _
  · intro lumeraAddr _ hne
    show strBytes f.icaAddress ≠ strBytes lumeraAddr
    exact fun h => hne h.symm

theorem wFlags_ok : firstMissingFlag wFlags = none := by decide

theorem wEnv_ok : EnvOk wEnv :=
  ⟨⟨(), rfl⟩, ⟨(), rfl⟩, ⟨(), rfl⟩, ⟨"lumera1localaddr", rfl⟩, ⟨(), rfl⟩,
   ⟨[2, 200, 17], rfl⟩, ⟨(), rfl⟩, rfl⟩

theorem c2_stdout_exact_packet_witness :
    ∃ d : String,
      (runMain wFlags wEnv).stdout = packetJSON d ∧
      parseFlatObj (runMain wFlags wEnv).stdout =
        some [("type", "TYPE_EXECUTE_TX"), ("data", d), ("memo", "")] ∧
      (runMain wFlags wEnv).exitCode = 0 :=
  c2_stdout_exact_packet wFlags wEnv wFlags_ok wEnv_ok

theorem c1_data_decodes_to_ica_creator_witness :
    ∃ (d : String) (a : PbAny) (m : MsgRequestAction),
      parseFlatObj (runMain wFlags wEnv).stdout =
        some [("type", "TYPE_EXECUTE_TX"), ("data", d), ("memo", "")] ∧
      b64DecodeChars d.data = some (builtTxBytes wFlags wEnv) ∧
      unmarshalCosmosTx (builtTxBytes wFlags wEnv) = some [a] ∧
      decodeMsgRequestAction a.value = some m ∧
      m.creator = strBytes wFlags.icaAddress ∧
      (∀ lumeraAddr, wEnv.lumeraAddrRes = .ok lumeraAddr →
        strBytes lumeraAddr ≠ strBytes wFlags.icaAddress →
        m.creator ≠ strBytes lumeraAddr) :=
  c1_data_decodes_to_ica_creator wFlags wEnv wFlags_ok wEnv_ok
    (by decide) (by decide) (by decide)

/-! ### Claim C3: required-flag validation -/

/-- C3: each of the five required flags, when blank (after Go
`TrimSpace`) while the ones checked before it are non-blank, makes the
builder exit 1 with `--<name> is required` on stderr and nothing on
stdout, independently of every collaborator outcome (so before any
keystore creation or external call, and the directory is never
created); validation succeeds exactly when all five are non-blank, and
`--owner-hrp` is never checked and defaults to `"osmo"`. -/
theorem c3_required_flags :
    (∀ (f : Flags) (env : BuildEnv) (name : String),
      firstMissingFlag f = some name →
      runMain f env =
        { stdout := "", stderr := ["--" ++ name ++ " is required"],
          exitCode := 1, dirCreated := false, dirRemoved := false }) ∧
    (∀ f : Flags, firstMissingFlag f = none ↔
      (goTrimSpace f.mnemonic ≠ "" ∧ goTrimSpace f.icaAddress ≠ "" ∧
       goTrimSpace f.grpcAddr ≠ "" ∧ goTrimSpace f.chainID ≠ "" ∧
       goTrimSpace f.file ≠ "")) ∧
    (∀ f : Flags, goTrimSpace f.mnemonic = "" →
      firstMissingFlag f = some "mnemonic") ∧
    (∀ f : Flags, goTrimSpace f.mnemonic ≠ "" → goTrimSpace f.icaAddress = "" →
      firstMissingFlag f = some "ica-address") ∧
    (∀ f : Flags, goTrimSpace f.mnemonic ≠ "" → goTrimSpace f.icaAddress ≠ "" →
      goTrimSpace f.grpcAddr = "" → firstMissingFlag f = some "grpc-addr") ∧
    (∀ f : Flags, goTrimSpace f.mnemonic ≠ "" → goTrimSpace f.icaAddress ≠ "" →
      goTrimSpace f.grpcAddr ≠ "" → goTrimSpace f.chainID = "" →
      firstMissingFlag f = some "chain-id") ∧
    (∀ f : Flags, goTrimSpace f.mnemonic ≠ "" → goTrimSpace f.icaAddress ≠ "" →
      goTrimSpace f.grpcAddr ≠ "" → goTrimSpace f.chainID ≠ "" →
      goTrimSpace f.file = "" → firstMissingFlag f = some "file") ∧
    (∀ m i g c fl h, (parseFlags m i g c fl h).ownerHRP = h.getD "osmo") := by
  refine ⟨?_, ?_, ?_, ?_, ?_, ?_, ?_, ?_⟩
  · intro f env name h
    simp [runMain, h]
  · intro f
    simp [firstMissingFlag, requiredChecks, List.find?_eq_none]
  · intro f h1
    simp [firstMissingFlag, requiredChecks, List.find?_cons, h1]
  · intro f h1 h2
    simp [firstMissingFlag, requiredChecks, List.find?_cons, h1, h2]
  · intro f h1 h2 h3
    simp [firstMissingFlag, requiredChecks, List.find?_cons, h1, h2, h3]
  · intro f h1 h2 h3 h4
    simp [firstMissingFlag, requiredChecks, List.find?_cons, h1, h2, h3, h4]
  · intro f h1 h2 h3 h4 h5
    simp [firstMissingFlag, requiredChecks, List.find?_cons, h1, h2, h3, h4, h5]
  · intro m i g c fl h
    rfl

theorem c3_required_flags_witness :
    runMain wFlagsNoFile wEnv =
      { stdout := "", stderr := ["--file is required"], exitCode := 1,
        dirCreated := false, dirRemoved := false } ∧
    (parseFlags (some "m") (some "i") (some "g") (some "c") (some "f") none).ownerHRP
      = "osmo" :=
  ⟨c3_required_flags.1 wFlagsNoFile wEnv "file"
      (c3_required_flags.2.2.2.2.2.2.1 wFlagsNoFile (by decide) (by decide)
        (by decide) (by decide) (by decide)),
   c3_required_flags.2.2.2.2.2.2.2 (some "m") (some "i") (some "g") (some "c")
      (some "f") none⟩

/-- C5 (refuting the guaranteed-cleanup claim): `fatal` calls
`os.Exit(1)`, which terminates the Go process without running deferred
functions, so the `defer os.RemoveAll(tmpDir)` of `main.go` line 61 is
skipped on every `fatal` path after the directory was created: with a
failing keyring creation the run exits 1 with the directory created but
never removed.  On the success path the deferred remove does run. -/
theorem c5_tmpdir_leak_on_fatal :
    (runMain wFlags c5Env).dirCreated = true ∧
    (runMain wFlags c5Env).dirRemoved = false ∧
    (runMain wFlags c5Env).exitCode = 1 ∧
    (runMain wFlags wEnv).dirRemoved = true := by
  refine ⟨?_, ?_, ?_, ?_⟩ <;> rfl

/-! ### Claim C9: gRPC endpoint normalisation -/

theorem isPrefixOf_true_iff (l s : List Char) : l.isPrefixOf s = true ↔ l <+: s := by
  induction l generalizing s with
  | nil => simp [List.isPrefixOf]
  | cons a l ih =>
    cases s with
    | nil => simp [List.isPrefixOf]
    | cons b t =>
      simp [List.isPrefixOf, ih, List.cons_prefix_cons, And.comm]

theorem replaceFirst_no_occ (s old new : List Char) (h : ¬ old <:+: s) :
    replaceFirst s old new = s := by
  induction s with
  | nil => rfl
  | cons c rest ih =>
    rw [replaceFirst]
    have hpre : ¬ old.isPrefixOf (c :: rest) = true := by
      intro hp
      exact h ((isPrefixOf_true_iff _ _).mp hp).isInfix
    rw [if_neg hpre, ih (fun hi => h (List.infix_cons hi))]

theorem replaceFirst_min_occ (old new pre suf : List Char) (hold : old ≠ [])
    (hmin : ∀ pre2 suf2, pre ++ old ++ suf = pre2 ++ old ++ suf2 →
      pre.length ≤ pre2.length) :
    replaceFirst (pre ++ old ++ suf) old new = pre ++ new ++ suf := by
  induction pre with
  | nil =>
    obtain ⟨c, old2, rfl⟩ : ∃ c l, old = c :: l := by
      cases old with
      | nil => exact absurd rfl hold
      | cons c l => exact ⟨c, l, rfl⟩
    simp only [List.nil_append, List.cons_append, replaceFirst, List.append_eq]
    have hpre : (c :: old2).isPrefixOf (c :: (old2 ++ suf)) = true :=
      (isPrefixOf_true_iff _ _).mpr ⟨suf, by simp⟩
    rw [if_pos hpre]
    simp only [List.length_cons, List.drop_succ_cons, List.drop_left]
  | cons c pre ih =>
    simp only [List.cons_append, replaceFirst, List.append_eq, List.append_assoc]
    have hpre : ¬ old.isPrefixOf (c :: (pre ++ (old ++ suf))) = true := by
      intro hp
      obtain ⟨t, ht⟩ := (isPrefixOf_true_iff _ _).mp hp
      have := hmin [] t (by simpa [List.append_assoc] using ht.symm)
      simp at this
    rw [if_neg hpre]
    have hmin2 : ∀ pre2 suf2, pre ++ old ++ suf = pre2 ++ old ++ suf2 →
        pre.length ≤ pre2.length := by
      intro pre2 suf2 h
      have := hmin (c :: pre2) suf2 (by simp [h])
      simpa using this
    have hrw := ih hmin2
    simp only [List.append_assoc] at hrw
    rw [hrw]

/-- C9: the builder rewrites the first occurrence of `0.0.0.0` in the
gRPC endpoint to `localhost`, and passes every endpoint without that
substring through unchanged. -/
theorem c9_grpc_normalization :
    (∀ s : String, ¬ ("0.0.0.0".data <:+: s.data) → normalizeGRPCAddr s = s) ∧
    (∀ (s : String) (pre suf : List Char),
      s.data = pre ++ "0.0.0.0".data ++ suf →
      (∀ pre2 suf2, s.data = pre2 ++ "0.0.0.0".data ++ suf2 →
        pre.length ≤ pre2.length) →
      (normalizeGRPCAddr s).data = pre ++ "localhost".data ++ suf) := by
  constructor
  · intro s h
    show goReplaceOnce s "0.0.0.0" "localhost" = s
    rw [goReplaceOnce, if_neg (by decide)]
    rw [replaceFirst_no_occ _ _ _ h]
  · intro s pre suf hdecomp hmin
    show (goReplaceOnce s "0.0.0.0" "localhost").data = _
    rw [goReplaceOnce, if_neg (by decide)]
    show replaceFirst s.data "0.0.0.0".data "localhost".data = _
    rw [hdecomp]
    exact replaceFirst_min_occ _ _ _ _ (by decide)
      (fun pre2 suf2 h2 => hmin pre2 suf2 (hdecomp.trans h2))

theorem c9_grpc_normalization_witness :
    normalizeGRPCAddr "localhost:9090" = "localhost:9090" ∧
    (normalizeGRPCAddr "0.0.0.0:9090").data =
      [] ++ "localhost".data ++ ":9090".data :=
  ⟨c9_grpc_normalization.1 "localhost:9090" (by decide),
   c9_grpc_normalization.2 "0.0.0.0:9090" [] ":9090".data (by decide)
     (fun pre2 suf2 h => Nat.zero_le _)⟩

/-! ### Claims C4, C6, C7, C8, C10 -/

/-- C4 counterexample: the final verification does NOT assert that
exactly one matching entry exists — a response with two actions created
by the ICA address passes it unchanged. -/
theorem c4_exactly_one_counterexample :
    verifyActionCreated
      [⟨"lumera1ica", "1", "ACTION_TYPE_CASCADE", "DONE"⟩,
       ⟨"lumera1ica", "2", "ACTION_TYPE_CASCADE", "DONE"⟩] "lumera1ica" = true ∧
    (([⟨"lumera1ica", "1", "ACTION_TYPE_CASCADE", "DONE"⟩,
       ⟨"lumera1ica", "2", "ACTION_TYPE_CASCADE", "DONE"⟩] : List ActionEntry).filter
      (fun a => a.creator == "lumera1ica")).length = 2 := by
  exact ⟨rfl, rfl⟩

/-- C4 (amended): the final verification passes exactly when some entry
has the remote account as creator and the first such entry's type tag is
`ACTION_TYPE_CASCADE`; when no entry has that creator it fails. -/
theorem c4_verify_first_match (actions : List ActionEntry) (c : String) :
    (verifyActionCreated actions c = true ↔
      ∃ a, actions.find? (fun x => x.creator == c) = some a ∧
        a.actionType = "ACTION_TYPE_CASCADE") ∧
    ((∀ a ∈ actions, a.creator ≠ c) → verifyActionCreated actions c = false) := by
  constructor
  · unfold verifyActionCreated
    cases hf : actions.find? (fun x => x.creator == c) with
    | none => simp
    | some a => simp [beq_iff_eq]
  · intro h
    unfold verifyActionCreated
    rw [List.find?_eq_none.mpr (fun x hx => by simp [h x hx])]

theorem c4_verify_first_match_witness :
    verifyActionCreated [⟨"lumera1other", "1", "ACTION_TYPE_SENSE", "DONE"⟩]
      "lumera1ica" = false :=
  (c4_verify_first_match _ _).2 (by decide)

/-- C6: every parsed non-zero status code — registration broadcast,
bank send, send-tx broadcast, and the post-inclusion by-hash execution
query — aborts the flow as a hard failure. -/
theorem c6_nonzero_codes_abort (env : DriverEnv) :
    (∀ r, env.registerResp = some r → r.code ≠ 0 →
      driverFlow env = .failed "register-ica-code") ∧
    (∀ r b, env.registerResp = some r → r.code = 0 → env.bankResp = some b →
      b.code ≠ 0 → driverFlow env = .failed "fund-ica-code") ∧
    (∀ r b sr, env.registerResp = some r → r.code = 0 → env.bankResp = some b →
      b.code = 0 → env.sendResp = some sr → sr.code ≠ 0 →
      driverFlow env = .failed "send-tx-code") ∧
    (∀ r b sr q, env.registerResp = some r → r.code = 0 → env.bankResp = some b →
      b.code = 0 → env.sendResp = some sr → sr.code = 0 →
      env.queryTxExec = some (some q) → q.code ≠ 0 →
      driverFlow env = .failed "send-tx-exec-code") := by
  refine ⟨?_, ?_, ?_, ?_⟩
  · intro r h1 h2
    simp [driverFlow, h1, h2]
  · intro r b h1 h2 h3 h4
    simp [driverFlow, h1, h2, h3, h4]
  · intro r b sr h1 h2 h3 h4 h5 h6
    simp [driverFlow, h1, h2, h3, h4, h5, h6]
  · intro r b sr q h1 h2 h3 h4 h5 h6 h7 h8
    simp [driverFlow, h1, h2, h3, h4, h5, h6, h7, h8]

theorem c6_nonzero_codes_abort_witness :
    driverFlow
      { registerResp := some ⟨0, "h1", ""⟩, bankResp := some ⟨0, "h2", ""⟩,
        sendResp := some ⟨5, "h3", "out of gas"⟩, queryTxExec := none } =
      .failed "send-tx-code" :=
  (c6_nonzero_codes_abort _).2.2.1 ⟨0, "h1", ""⟩ ⟨0, "h2", ""⟩
    ⟨5, "h3", "out of gas"⟩ rfl rfl rfl rfl rfl (by decide)

theorem pollICAAux_all_fail (results : Nat → Option String) (rem : Nat) :
    ∀ start, (∀ j, start ≤ j → j < start + rem →
      ¬ ∃ a, results j = some a ∧ a ≠ "") →
    pollICAAux results start rem = none := by
  induction rem with
  | zero => intro start _; rfl
  | succ rem ih =>
    intro start h
    cases hres : results start with
    | none =>
      simp only [pollICAAux, hres]
      exact ih (start + 1) (fun j hj1 hj2 => h j (by omega) (by omega))
    | some addr =>
      have haddr : ¬ addr ≠ "" := fun hne =>
        h start (Nat.le_refl _) (by omega) ⟨addr, hres, hne⟩
      simp only [pollICAAux, hres, if_neg haddr]
      exact ih (start + 1) (fun j hj1 hj2 => h j (by omega) (by omega))

theorem pollICAAux_first_success (results : Nat → Option String) (rem : Nat) :
    ∀ start k addr, start ≤ k → k < start + rem → results k = some addr →
    addr ≠ "" →
    (∀ j, start ≤ j → j < k → ¬ ∃ a, results j = some a ∧ a ≠ "") →
    pollICAAux results start rem = some addr := by
  induction rem with
  | zero =>
    intro start k addr h1 h2
    omega
  | succ rem ih =>
    intro start k addr hk hlt hres hne hbefore
    by_cases hstart : k = start
    · subst hstart
      simp only [pollICAAux, hres, if_pos hne]
    · have hgt : start < k := by omega
      have hfail := hbefore start (Nat.le_refl _) hgt
      cases hres0 : results start with
      | none =>
        simp only [pollICAAux, hres0]
        exact ih (start + 1) k addr (by omega) (by omega) hres hne
          (fun j hj1 hj2 => hbefore j (by omega) hj2)
      | some a0 =>
        have ha0 : ¬ a0 ≠ "" := fun hne0 => hfail ⟨a0, hres0, hne0⟩
        simp only [pollICAAux, hres0, if_neg ha0]
        exact ih (start + 1) k addr (by omega) (by omega) hres hne
          (fun j hj1 hj2 => hbefore j (by omega) hj2)

/-- C7: the wait for the ICA address is a bounded poll —
timeout/interval = 40 attempts; the first successful attempt within the
bound (even after earlier failed attempts) returns its address, and
when every attempt within the bound fails the poll returns `none`
(the test then fails instead of hanging). -/
theorem c7_poll_bounded (results : Nat → Option String) :
    icaPollTicks = 40 ∧
    ((∀ k, k < icaPollTicks → ¬ ∃ a, results k = some a ∧ a ≠ "") →
      pollICAAddress results = none) ∧
    (∀ k addr, k < icaPollTicks → results k = some addr → addr ≠ "" →
      (∀ j, j < k → ¬ ∃ a, results j = some a ∧ a ≠ "") →
      pollICAAddress results = some addr) := by
  refine ⟨rfl, ?_, ?_⟩
  · intro h
    exact pollICAAux_all_fail results icaPollTicks 0
      (fun j _ hj2 => h j (by omega))
  · intro k addr hk hres hne hbefore
    exact pollICAAux_first_success results icaPollTicks 0 k addr
      (Nat.zero_le _) (by omega) hres hne (fun j _ hj2 => hbefore j hj2)

theorem c7_poll_bounded_witness :
    pollICAAddress (fun k => if k = 5 then some "lumera1ica" else none) =
      some "lumera1ica" :=
  (c7_poll_bounded _).2.2 5 "lumera1ica" (by decide) rfl (by decide)
    (by
      intro j hj h
      obtain ⟨a, ha, _⟩ := h
      rw [if_neg (by omega)] at ha
      cases ha)

/-- C8: the flush channel is found by scanning the chain's channels for
a port ID with the `icacontroller-` marker: when no channel's port has
it the lookup fails (the test aborts), and any returned channel ID
belongs to a channel whose port has it. -/
theorem c8_flush_channel_port_scan (channels : List IBCChannel) :
    ((∀ ch ∈ channels, hasPrefixGo ch.portID "icacontroller-" = false) →
      findICAChannel channels = none) ∧
    (∀ cid, findICAChannel channels = some cid →
      ∃ ch ∈ channels, hasPrefixGo ch.portID "icacontroller-" = true ∧
        ch.channelID = cid) := by
  constructor
  · intro h
    unfold findICAChannel
    rw [List.find?_eq_none.mpr (fun ch hch => by simp [h ch hch])]
    rfl
  · intro cid h
    unfold findICAChannel at h
    cases hf : channels.find? (fun ch => hasPrefixGo ch.portID "icacontroller-") with
    | none => rw [hf] at h; cases h
    | some ch =>
      rw [hf] at h
      have hp := List.find?_some hf
      exact ⟨ch, List.mem_of_find?_eq_some hf, hp, by simpa using h⟩

theorem c8_flush_channel_port_scan_witness :
    findICAChannel [⟨"channel-0", "transfer"⟩] = none ∧
    ∃ ch ∈ ([⟨"channel-0", "transfer"⟩,
             ⟨"channel-1", "icacontroller-osmo1owner"⟩] : List IBCChannel),
      hasPrefixGo ch.portID "icacontroller-" = true ∧ ch.channelID = "channel-1" :=
  ⟨(c8_flush_channel_port_scan _).1 (by decide),
   (c8_flush_channel_port_scan _).2 "channel-1" (by decide)⟩

theorem getKey_setKey (m : List (String × GVal)) (k : String) (v : GVal) :
    getKey (setKey m k v) k = some v := by
  induction m with
  | nil => simp [setKey, getKey, List.find?]
  | cons p rest ih =>
    obtain ⟨k2, v2⟩ := p
    by_cases h : k2 == k
    · simp only [setKey, if_pos h, getKey, List.find?, h]
      rfl
    · simp only [setKey, if_neg h, getKey, List.find?, h]
      exact ih

/-- C10: with no readable claims.csv the genesis is untouched; a zero
computed total also leaves it untouched; a non-zero total sets
`app_state.claim.total_claimable_amount` to its decimal string — and no
error is ever returned. -/
theorem c10_claims_genesis (appState : List (String × GVal))
    (rows : List (List String)) :
    (setClaimsTotalFromCSV none appState = .ok appState) ∧
    (claimsTotal rows = 0 →
      setClaimsTotalFromCSV (some rows) appState = .ok appState) ∧
    (claimsTotal rows ≠ 0 →
      ∃ m, setClaimsTotalFromCSV (some rows) appState = .ok m ∧
        ∃ claimFields, getKey m "claim" = some (.obj claimFields) ∧
          getKey claimFields "total_claimable_amount" =
            some (.str (toString (claimsTotal rows)))) := by
  refine ⟨rfl, ?_, ?_⟩
  · intro h
    simp [setClaimsTotalFromCSV, h]
  · intro h
    refine ⟨setKey appState "claim" (.obj (setKey
        (match getKey appState "claim" with
         | some (.obj m) => m
         | _ => []) "total_claimable_amount" (.str (toString (claimsTotal rows))))),
      ?_, _, getKey_setKey _ _ _, getKey_setKey _ _ _⟩
    simp [setClaimsTotalFromCSV, h]

theorem c10_claims_genesis_witness :
    claimsTotal [["addr1", "100"], ["short"], ["addr2", "x5"], ["addr3", "-40"]]
      = 60 ∧
    ∃ m, setClaimsTotalFromCSV
        (some [["addr1", "100"], ["short"], ["addr2", "x5"], ["addr3", "-40"]])
        [("staking", .other)] = .ok m ∧
      ∃ claimFields, getKey m "claim" = some (.obj claimFields) ∧
        getKey claimFields "total_claimable_amount" =
          some (.str (toString (claimsTotal
            [["addr1", "100"], ["short"], ["addr2", "x5"], ["addr3", "-40"]]))) :=
  ⟨by decide,
   (c10_claims_genesis [("staking", .other)]
      [["addr1", "100"], ["short"], ["addr2", "x5"], ["addr3", "-40"]]).2.2
      (by decide)⟩
